import Mathlib

/-!
Verification of the client-side reputation aggregation of the
Open Agent Trust SDK, a faithful shallow embedding of the method
getWeightedReputation of the class AgentTrustSDK.

Modelling choices:
* scores are rational numbers (the source computes arithmetic means
  with exact small-integer data in all documented uses);
* the mapping byCategory is an association list whose keys appear in
  order of first insertion, mirroring the object semantics of the
  source language;
* the optional query fields are Option String, and a filter stage is
  skipped when the field is absent or the empty string, mirroring the
  truthiness test of the source (an empty string is falsy there);
* the field named ns here corresponds to the source field named
  namespace, which is a reserved word in Lean.
-/

/-- An attestation record, as in the Attestation interface of the SDK. -/
structure Attestation where
  fromAgent : Nat
  toAgent : Nat
  ns : String
  tag : String
  score : ℚ
  interactionId : String
  comment : String
  timestamp : Nat
  deriving DecidableEq

/-- The optional filter accepted by getWeightedReputation. -/
structure WeightedReputationQuery where
  viewerAgentId : Option Nat := none
  ns : Option String := none
  tag : Option String := none
  deriving DecidableEq

/-- The four risk labels produced by the aggregation. -/
inductive RiskLevel where
  | low
  | medium
  | high
  | critical
  deriving DecidableEq

/-- The reputation report returned by getWeightedReputation. -/
structure WeightedReputation where
  overall : ℚ
  byCategory : List (String × ℚ)
  decayFactor : ℚ
  riskLevel : RiskLevel
  suspicionScore : ℚ
  totalAttestations : Nat
  deriving DecidableEq

/-- The grouping key of an attestation: namespace and tag joined by a colon. -/
def categoryKey (a : Attestation) : String :=
  a.ns ++ ":" ++ a.tag

/-- One stage of the query filter: when the optional field holds a
non-empty string, keep only the attestations whose corresponding
field equals it; otherwise (absent field, or the empty string, which
is falsy in the source language) return the list unchanged. -/
def filterByField (v : Option String) (fld : Attestation → String)
    (atts : List Attestation) : List Attestation :=
  match v with
  | some s => if s = "" then atts else atts.filter (fun a => fld a == s)
  | none => atts

/-- The filtering phase of getWeightedReputation: a namespace stage
followed by a tag stage. -/
def applyFilter (query : Option WeightedReputationQuery)
    (atts : List Attestation) : List Attestation :=
  filterByField (query.bind WeightedReputationQuery.tag) Attestation.tag
    (filterByField (query.bind WeightedReputationQuery.ns) Attestation.ns atts)

/-- Append one score to the group of the given key, creating the group
at the end when the key is new; this mirrors the object update
byCategory[key].push(att.score) of the source. -/
def pushScore : List (String × List ℚ) → String → ℚ → List (String × List ℚ)
  | [], k, s => [(k, [s])]
  | (k₀, ss) :: rest, k, s =>
    if k₀ = k then (k₀, ss ++ [s]) :: rest
    else (k₀, ss) :: pushScore rest k s

/-- The grouping loop of getWeightedReputation over the filtered list. -/
def groupByCategory (atts : List Attestation) : List (String × List ℚ) :=
  atts.foldl (fun g a => pushScore g (categoryKey a) a.score) []

/-- Arithmetic mean of a list of scores, as computed by the source
(sum by a left fold starting from zero, divided by the length). -/
def meanScores (scores : List ℚ) : ℚ :=
  scores.sum / (scores.length : ℚ)

/-- The per-category averages of getWeightedReputation. -/
def categoryScoresOf (atts : List Attestation) : List (String × ℚ) :=
  (groupByCategory atts).map (fun p => (p.1, meanScores p.2))

/-- The risk thresholds of getWeightedReputation, applied to the
unfiltered attestation count. -/
def riskLevelOf (n : Nat) : RiskLevel :=
  if 20 < n then RiskLevel.low
  else if 10 < n then RiskLevel.medium
  else if 5 < n then RiskLevel.high
  else RiskLevel.critical

/-- The aggregation getWeightedReputation of the SDK, over an already
fetched attestation list: filter, group by category key, average each
group, average the group means, and attach the constant decay factor,
the risk label derived from the unfiltered count, the constant zero
suspicion score, and the unfiltered count. -/
def getWeightedReputation (attestations : List Attestation)
    (query : Option WeightedReputationQuery) : WeightedReputation :=
  let filteredAttestations := applyFilter query attestations
  let categoryScores := categoryScoresOf filteredAttestations
  let allScores := categoryScores.map Prod.snd
  { overall := if 0 < allScores.length then allScores.sum / (allScores.length : ℚ) else 0
    byCategory := categoryScores
    decayFactor := 98 / 100
    riskLevel := riskLevelOf attestations.length
    suspicionScore := 0
    totalAttestations := attestations.length }

/-- Association-list lookup used to read the byCategory mapping. -/
def lookupG {β : Type} (k : String) : List (String × β) → Option β
  | [] => none
  | p :: rest => if p.1 = k then some p.2 else lookupG k rest

/-- The scores of the attestations of a list whose category key is k,
in list order. -/
def scoresOf (atts : List Attestation) (k : String) : List ℚ :=
  (atts.filter (fun a => categoryKey a == k)).map Attestation.score

/-- First attestation of the worked example of the documentation. -/
def exAtt1 : Attestation := ⟨0, 0, "a", "x", 80, "", "", 0⟩

/-- Second attestation of the worked example of the documentation. -/
def exAtt2 : Attestation := ⟨0, 0, "a", "x", 100, "", "", 0⟩

/-- Third attestation of the worked example of the documentation. -/
def exAtt3 : Attestation := ⟨0, 0, "a", "y", 50, "", "", 0⟩

/-- The attestation list of the worked example of the documentation. -/
def exampleAtts : List Attestation := [exAtt1, exAtt2, exAtt3]

/-- An attestation whose namespace itself contains a colon. -/
def collideA : Attestation := ⟨0, 0, "a:b", "c", 0, "", "", 0⟩

/-- An attestation with a different pair of namespace and tag, whose
category key nevertheless coincides with the one of collideA. -/
def collideB : Attestation := ⟨0, 0, "a", "b:c", 100, "", "", 0⟩

/-- A plain attestation used to build lists of a given length. -/
def blankAtt : Attestation := ⟨0, 0, "n", "t", 1, "", "", 0⟩

/-! ### Basic facts about lookup and group updates -/

theorem lookupG_eq_none_iff {β : Type} (k : String) (g : List (String × β)) :
    lookupG k g = none ↔ k ∉ g.map Prod.fst := by
  induction g with
  | nil => simp [lookupG]
  | cons p rest ih =>
    by_cases h : p.1 = k
    · simp [lookupG, h]
    · have h' : ¬k = p.1 := fun hh => h hh.symm
      simp [lookupG, h, h', ih]

theorem lookupG_pushScore (g : List (String × List ℚ)) (k k' : String) (s : ℚ) :
    lookupG k' (pushScore g k s) =
      if k' = k then some ((lookupG k g).getD [] ++ [s]) else lookupG k' g := by
  induction g with
  | nil =>
    by_cases h : k' = k
    · subst h; simp [pushScore, lookupG]
    · have h2 : ¬k = k' := fun hh => h hh.symm
      simp [pushScore, lookupG, h, h2]
  | cons p rest ih =>
    obtain ⟨k₀, ss⟩ := p
    by_cases h0 : k₀ = k
    · subst h0
      by_cases h1 : k' = k₀
      · subst h1; simp [pushScore, lookupG]
      · have h1' : ¬k₀ = k' := fun hh => h1 hh.symm
        simp [pushScore, lookupG, h1, h1']
    · by_cases h1 : k' = k₀
      · subst h1
        have hne : ¬k' = k := fun hh => h0 (hh ▸ rfl)
        simp [pushScore, lookupG, h0, hne]
      · have h1s : ¬k₀ = k' := fun hh => h1 hh.symm
        simp [pushScore, lookupG, h0, h1s, ih]

theorem map_fst_pushScore (g : List (String × List ℚ)) (k : String) (s : ℚ) :
    (pushScore g k s).map Prod.fst =
      if k ∈ g.map Prod.fst then g.map Prod.fst else g.map Prod.fst ++ [k] := by
  induction g with
  | nil => simp [pushScore]
  | cons p rest ih =>
    obtain ⟨k₀, ss⟩ := p
    by_cases h0 : k₀ = k
    · subst h0; simp [pushScore]
    · have h0s : ¬k = k₀ := fun hh => h0 hh.symm
      by_cases hm : k ∈ rest.map Prod.fst <;>
        simp [pushScore, h0, h0s, hm, ih]

theorem nodup_map_fst_pushScore (g : List (String × List ℚ)) (k : String) (s : ℚ)
    (h : (g.map Prod.fst).Nodup) : ((pushScore g k s).map Prod.fst).Nodup := by
  rw [map_fst_pushScore]
  by_cases hm : k ∈ g.map Prod.fst
  · simpa [hm] using h
  · simp only [hm, if_false]
    rw [List.nodup_append]
    refine ⟨h, List.nodup_singleton k, ?_⟩
    intro x hx hx2
    simp only [List.mem_singleton] at hx2
    subst hx2
    exact hm hx

theorem scoresOf_cons (a : Attestation) (l : List Attestation) (k : String) :
    scoresOf (a :: l) k =
      if categoryKey a = k then a.score :: scoresOf l k else scoresOf l k := by
  by_cases h : categoryKey a = k <;> simp [scoresOf, List.filter_cons, h]

theorem lookupG_group_aux (l : List Attestation) (g : List (String × List ℚ)) (k : String) :
    lookupG k (l.foldl (fun g a => pushScore g (categoryKey a) a.score) g) =
      if lookupG k g = none ∧ scoresOf l k = [] then none
      else some ((lookupG k g).getD [] ++ scoresOf l k) := by
  induction l generalizing g with
  | nil => cases h : lookupG k g <;> simp [scoresOf, h]
  | cons a l ih =>
    rw [List.foldl_cons, ih, lookupG_pushScore, scoresOf_cons]
    by_cases hk : categoryKey a = k
    · simp only [hk]
      cases h : lookupG k g <;> simp [h, List.append_assoc]
    · have hk' : ¬k = categoryKey a := fun hh => hk hh.symm
      simp only [if_neg hk, if_neg hk']

theorem lookupG_groupByCategory (l : List Attestation) (k : String) :
    lookupG k (groupByCategory l) =
      if scoresOf l k = [] then none else some (scoresOf l k) := by
  have h := lookupG_group_aux l [] k
  simpa [groupByCategory, lookupG] using h

theorem nodup_map_fst_group_aux (l : List Attestation) (g : List (String × List ℚ))
    (h : (g.map Prod.fst).Nodup) :
    ((l.foldl (fun g a => pushScore g (categoryKey a) a.score) g).map Prod.fst).Nodup := by
  induction l generalizing g with
  | nil => simpa using h
  | cons a l ih => exact ih _ (nodup_map_fst_pushScore _ _ _ h)

theorem nodup_map_fst_groupByCategory (l : List Attestation) :
    ((groupByCategory l).map Prod.fst).Nodup :=
  nodup_map_fst_group_aux l [] (by simp)

theorem lookupG_of_mem {β : Type} (g : List (String × β)) (p : String × β)
    (hn : (g.map Prod.fst).Nodup) (hp : p ∈ g) : lookupG p.1 g = some p.2 := by
  induction g with
  | nil => simp at hp
  | cons q rest ih =>
    simp only [List.map_cons, List.nodup_cons] at hn
    rcases List.mem_cons.mp hp with h | h
    · subst h; simp [lookupG]
    · have hne : ¬q.1 = p.1 := by
        intro hh
        exact hn.1 (hh ▸ List.mem_map.mpr ⟨p, h, rfl⟩)
      simp [lookupG, hne, ih hn.2 h]

theorem snd_entries_groupByCategory (l : List Attestation) (p : String × List ℚ)
    (hp : p ∈ groupByCategory l) : p.2 = scoresOf l p.1 ∧ scoresOf l p.1 ≠ [] := by
  have h1 := lookupG_of_mem _ p (nodup_map_fst_groupByCategory l) hp
  rw [lookupG_groupByCategory] at h1
  by_cases h : scoresOf l p.1 = []
  · simp [h] at h1
  · simp only [h, if_neg, if_false] at h1
    exact ⟨(Option.some_inj.mp h1).symm, h⟩

/-! ### Facts about the per-category averages -/

theorem map_fst_categoryScoresOf (l : List Attestation) :
    (categoryScoresOf l).map Prod.fst = (groupByCategory l).map Prod.fst := by
  simp [categoryScoresOf, List.map_map, Function.comp]

theorem nodup_map_fst_categoryScoresOf (l : List Attestation) :
    ((categoryScoresOf l).map Prod.fst).Nodup := by
  rw [map_fst_categoryScoresOf]
  exact nodup_map_fst_groupByCategory l

theorem lookupG_map_val {β γ : Type} (f : β → γ) (k : String) (g : List (String × β)) :
    lookupG k (g.map (fun p => (p.1, f p.2))) = (lookupG k g).map f := by
  induction g with
  | nil => simp [lookupG]
  | cons p rest ih =>
    by_cases h : p.1 = k <;> simp [lookupG, h, ih]

theorem lookupG_categoryScoresOf (l : List Attestation) (k : String) :
    lookupG k (categoryScoresOf l) =
      if scoresOf l k = [] then none else some (meanScores (scoresOf l k)) := by
  rw [categoryScoresOf, lookupG_map_val, lookupG_groupByCategory]
  by_cases h : scoresOf l k = [] <;> simp [h]

theorem scoresOf_ne_nil_iff (l : List Attestation) (k : String) :
    scoresOf l k ≠ [] ↔ ∃ a ∈ l, categoryKey a = k := by
  simp [scoresOf, List.filter_eq_nil_iff]

theorem mem_keys_categoryScoresOf (l : List Attestation) (k : String) :
    k ∈ (categoryScoresOf l).map Prod.fst ↔ scoresOf l k ≠ [] := by
  rw [map_fst_categoryScoresOf]
  have h := lookupG_eq_none_iff k (groupByCategory l)
  rw [lookupG_groupByCategory] at h
  constructor
  · intro hm hnil
    have h2 : (if scoresOf l k = [] then none
        else (some (scoresOf l k) : Option (List ℚ))) = none := by simp [hnil]
    exact (h.mp h2) hm
  · intro hne
    by_contra hm
    have h2 := h.mpr hm
    rw [if_neg hne] at h2
    exact Option.some_ne_none _ h2

theorem map_snd_categoryScoresOf (l : List Attestation) :
    (categoryScoresOf l).map Prod.snd =
      ((groupByCategory l).map Prod.fst).map (fun k => meanScores (scoresOf l k)) := by
  rw [categoryScoresOf, List.map_map, List.map_map]
  refine List.map_congr_left ?_
  intro p hp
  have h := (snd_entries_groupByCategory l p hp).1
  simp [Function.comp, h]

theorem mem_map_snd_categoryScoresOf (l : List Attestation) (v : ℚ) :
    v ∈ (categoryScoresOf l).map Prod.snd ↔
      ∃ k, scoresOf l k ≠ [] ∧ v = meanScores (scoresOf l k) := by
  rw [map_snd_categoryScoresOf]
  constructor
  · intro hv
    obtain ⟨k, hk, hkv⟩ := List.mem_map.mp hv
    have hne := (mem_keys_categoryScoresOf l k).mp
      (by rw [map_fst_categoryScoresOf]; exact hk)
    exact ⟨k, hne, hkv.symm⟩
  · rintro ⟨k, hne, rfl⟩
    refine List.mem_map.mpr ⟨k, ?_, rfl⟩
    have hk := (mem_keys_categoryScoresOf l k).mpr hne
    rw [map_fst_categoryScoresOf] at hk
    exact hk

/-! ### Facts about the filtering phase -/

theorem mem_filterByField (v : Option String) (fld : Attestation → String)
    (atts : List Attestation) (a : Attestation) (h : a ∈ filterByField v fld atts) :
    a ∈ atts := by
  cases v with
  | none => exact h
  | some s =>
    by_cases hs : s = ""
    · simpa [filterByField, hs] using h
    · simp only [filterByField, if_neg hs] at h
      exact (List.mem_filter.mp h).1

theorem mem_applyFilter (q : Option WeightedReputationQuery) (l : List Attestation)
    (a : Attestation) (h : a ∈ applyFilter q l) : a ∈ l :=
  mem_filterByField _ _ _ _ (mem_filterByField _ _ _ _ h)

theorem applyFilter_none (l : List Attestation) : applyFilter none l = l := rfl

theorem applyFilter_nil (q : Option WeightedReputationQuery) : applyFilter q [] = [] := by
  have h : ∀ v fld, filterByField v fld [] = [] := by
    intro v fld
    cases v with
    | none => rfl
    | some s => by_cases hs : s = "" <;> simp [filterByField, hs]
  simp [applyFilter, h]

theorem filterByField_perm (v : Option String) (fld : Attestation → String)
    {atts atts' : List Attestation} (h : atts.Perm atts') :
    (filterByField v fld atts).Perm (filterByField v fld atts') := by
  cases v with
  | none => exact h
  | some s =>
    by_cases hs : s = "" <;> simp only [filterByField, hs, if_true, if_false]
    · exact h
    · exact h.filter _

theorem applyFilter_perm (q : Option WeightedReputationQuery)
    {l l' : List Attestation} (h : l.Perm l') :
    (applyFilter q l).Perm (applyFilter q l') :=
  filterByField_perm _ _ (filterByField_perm _ _ h)

theorem scoresOf_perm {l l' : List Attestation} (h : l.Perm l') (k : String) :
    (scoresOf l k).Perm (scoresOf l' k) :=
  (h.filter _).map _

/-! ### Facts about arithmetic means -/

theorem le_meanScores {lo : ℚ} {ss : List ℚ} (hne : ss ≠ [])
    (h : ∀ s ∈ ss, lo ≤ s) : lo ≤ meanScores ss := by
  have hlen : 0 < (ss.length : ℚ) := by
    exact_mod_cast List.length_pos.mpr hne
  rw [meanScores, le_div_iff₀ hlen]
  calc lo * (ss.length : ℚ) = (ss.length : ℚ) * lo := mul_comm _ _
    _ = ss.length • lo := by rw [nsmul_eq_mul]
    _ ≤ ss.sum := List.card_nsmul_le_sum ss lo h

theorem meanScores_le {hi : ℚ} {ss : List ℚ} (hne : ss ≠ [])
    (h : ∀ s ∈ ss, s ≤ hi) : meanScores ss ≤ hi := by
  have hlen : 0 < (ss.length : ℚ) := by
    exact_mod_cast List.length_pos.mpr hne
  rw [meanScores, div_le_iff₀ hlen]
  calc ss.sum ≤ ss.length • hi := List.sum_le_card_nsmul ss hi h
    _ = (ss.length : ℚ) * hi := by rw [nsmul_eq_mul]
    _ = hi * (ss.length : ℚ) := mul_comm _ _

theorem exists_max_mem (l : List ℚ) (h : l ≠ []) :
    ∃ m ∈ l, ∀ v ∈ l, v ≤ m := by
  induction l with
  | nil => exact absurd rfl h
  | cons x xs ih =>
    cases xs with
    | nil => exact ⟨x, by simp⟩
    | cons y ys =>
      obtain ⟨m, hm, hmax⟩ := ih (by simp)
      by_cases hx : x ≤ m
      · refine ⟨m, List.mem_cons_of_mem x hm, ?_⟩
        intro v hv
        rcases List.mem_cons.mp hv with rfl | hv
        · exact hx
        · exact hmax v hv
      · refine ⟨x, List.mem_cons_self x _, ?_⟩
        intro v hv
        rcases List.mem_cons.mp hv with rfl | hv
        · exact le_refl v
        · exact le_of_lt (lt_of_le_of_lt (hmax v hv) (lt_of_not_le hx))

/-! ### Projections of the report -/

theorem byCategory_eq (l : List Attestation) (q : Option WeightedReputationQuery) :
    (getWeightedReputation l q).byCategory = categoryScoresOf (applyFilter q l) := rfl

theorem totalAttestations_eq (l : List Attestation) (q : Option WeightedReputationQuery) :
    (getWeightedReputation l q).totalAttestations = l.length := rfl

theorem riskLevel_eq (l : List Attestation) (q : Option WeightedReputationQuery) :
    (getWeightedReputation l q).riskLevel = riskLevelOf l.length := rfl

theorem decayFactor_eq (l : List Attestation) (q : Option WeightedReputationQuery) :
    (getWeightedReputation l q).decayFactor = 98 / 100 := rfl

theorem suspicionScore_eq (l : List Attestation) (q : Option WeightedReputationQuery) :
    (getWeightedReputation l q).suspicionScore = 0 := rfl

theorem overall_eq (l : List Attestation) (q : Option WeightedReputationQuery) :
    (getWeightedReputation l q).overall =
      if categoryScoresOf (applyFilter q l) = [] then 0
      else meanScores ((categoryScoresOf (applyFilter q l)).map Prod.snd) := by
  show (if 0 < ((categoryScoresOf (applyFilter q l)).map Prod.snd).length
        then ((categoryScoresOf (applyFilter q l)).map Prod.snd).sum /
          (((categoryScoresOf (applyFilter q l)).map Prod.snd).length : ℚ)
        else 0) = _
  by_cases h : categoryScoresOf (applyFilter q l) = []
  · simp [h]
  · have hlen : 0 < ((categoryScoresOf (applyFilter q l)).map Prod.snd).length := by
      simpa [List.length_pos] using h
    simp [h, hlen, meanScores]

/-! ### Evaluation of the worked example -/

theorem example_byCategory :
    (getWeightedReputation exampleAtts none).byCategory = [("a:x", 90), ("a:y", 50)] := by
  have hne : ("a" ++ ":" ++ "x" = "a" ++ ":" ++ "y") = False := by
    simp only [eq_iff_iff, iff_false]
    decide
  norm_num [getWeightedReputation, categoryScoresOf, groupByCategory, pushScore, categoryKey,
    meanScores, applyFilter, filterByField, exampleAtts, exAtt1, exAtt2, exAtt3, List.foldl, hne]
  constructor <;> decide

theorem example_overall :
    (getWeightedReputation exampleAtts none).overall = 70 := by
  have hne : ("a" ++ ":" ++ "x" = "a" ++ ":" ++ "y") = False := by
    simp only [eq_iff_iff, iff_false]
    decide
  norm_num [getWeightedReputation, categoryScoresOf, groupByCategory, pushScore, categoryKey,
    meanScores, applyFilter, filterByField, exampleAtts, exAtt1, exAtt2, exAtt3, List.foldl, hne]

theorem example_totalAttestations :
    (getWeightedReputation exampleAtts none).totalAttestations = 3 := rfl

theorem example_riskLevel :
    (getWeightedReputation exampleAtts none).riskLevel = RiskLevel.critical := by decide

/-! ### The claims -/

/-- C5: on the empty attestation list, with or without a filter, the
aggregation returns a defined report with overall zero, empty
byCategory, zero totalAttestations and the critical risk label; the
function is total and signals no error. -/
theorem empty_input_report (q : Option WeightedReputationQuery) :
    getWeightedReputation [] q =
      { overall := 0, byCategory := [], decayFactor := 98 / 100,
        riskLevel := RiskLevel.critical, suspicionScore := 0, totalAttestations := 0 } := by
  simp only [getWeightedReputation, applyFilter_nil]
  rfl

theorem empty_input_report_witness :
    getWeightedReputation [] none =
      { overall := 0, byCategory := [], decayFactor := 98 / 100,
        riskLevel := RiskLevel.critical, suspicionScore := 0, totalAttestations := 0 } :=
  empty_input_report none

/-- C8: the aggregation is deterministic and stateless: two
invocations on equal inputs yield identical reports, the report
being a pure function of the attestation list and the filter. -/
theorem report_deterministic (l1 l2 : List Attestation)
    (q1 q2 : Option WeightedReputationQuery) (h1 : l1 = l2) (h2 : q1 = q2) :
    getWeightedReputation l1 q1 = getWeightedReputation l2 q2 := by
  rw [h1, h2]

theorem report_deterministic_witness :
    getWeightedReputation exampleAtts none = getWeightedReputation exampleAtts none :=
  report_deterministic exampleAtts exampleAtts none none rfl rfl

/-- C9: the decayFactor field of every report is the constant 0.98,
that is 49 / 50, the suspicionScore field is the constant 0, and the
byCategory and overall fields coincide with computations that make no
reference to the decay constant. -/
theorem decay_constant_and_suspicion_zero (l : List Attestation)
    (q : Option WeightedReputationQuery) :
    (getWeightedReputation l q).decayFactor = 49 / 50 ∧
    (getWeightedReputation l q).suspicionScore = 0 ∧
    (getWeightedReputation l q).byCategory = categoryScoresOf (applyFilter q l) ∧
    (getWeightedReputation l q).overall =
      (if categoryScoresOf (applyFilter q l) = [] then 0
       else meanScores ((categoryScoresOf (applyFilter q l)).map Prod.snd)) := by
  refine ⟨?_, rfl, rfl, overall_eq l q⟩
  rw [decayFactor_eq]
  norm_num

theorem decay_constant_and_suspicion_zero_witness :
    (getWeightedReputation exampleAtts none).decayFactor = 49 / 50 :=
  (decay_constant_and_suspicion_zero exampleAtts none).1

/-- C3: the risk label of every report is determined solely by the
unfiltered attestation count through the fixed thresholds: low for
more than 20, medium for 11 to 20, high for 6 to 10, critical for at
most 5. -/
theorem riskLevel_thresholds (l : List Attestation) (q : Option WeightedReputationQuery) :
    ((getWeightedReputation l q).riskLevel = RiskLevel.low ↔ 20 < l.length) ∧
    ((getWeightedReputation l q).riskLevel = RiskLevel.medium ↔
      10 < l.length ∧ l.length ≤ 20) ∧
    ((getWeightedReputation l q).riskLevel = RiskLevel.high ↔
      5 < l.length ∧ l.length ≤ 10) ∧
    ((getWeightedReputation l q).riskLevel = RiskLevel.critical ↔ l.length ≤ 5) := by
  rw [riskLevel_eq, riskLevelOf]
  split_ifs with h1 h2 h3 <;>
    refine ⟨?_, ?_, ?_, ?_⟩ <;> simp_all <;> omega

theorem riskLevel_thresholds_witness :
    (getWeightedReputation (List.replicate 21 blankAtt) none).riskLevel = RiskLevel.low ∧
    (getWeightedReputation (List.replicate 20 blankAtt) none).riskLevel = RiskLevel.medium ∧
    (getWeightedReputation (List.replicate 11 blankAtt) none).riskLevel = RiskLevel.medium ∧
    (getWeightedReputation (List.replicate 10 blankAtt) none).riskLevel = RiskLevel.high ∧
    (getWeightedReputation (List.replicate 6 blankAtt) none).riskLevel = RiskLevel.high ∧
    (getWeightedReputation (List.replicate 5 blankAtt) none).riskLevel = RiskLevel.critical ∧
    (getWeightedReputation ([] : List Attestation) none).riskLevel = RiskLevel.critical :=
  ⟨(riskLevel_thresholds _ none).1.mpr (by simp),
   (riskLevel_thresholds _ none).2.1.mpr (by simp),
   (riskLevel_thresholds _ none).2.1.mpr (by simp),
   (riskLevel_thresholds _ none).2.2.1.mpr (by simp),
   (riskLevel_thresholds _ none).2.2.1.mpr (by simp),
   (riskLevel_thresholds _ none).2.2.2.mpr (by simp),
   (riskLevel_thresholds _ none).2.2.2.mpr (by simp)⟩

/-- C2: the overall field is the unweighted mean of the per-group
means of byCategory, zero when there are no groups; and on the worked
example the report has byCategory mapping the key a:x to 90 and the
key a:y to 50, overall 70, totalAttestations 3 and the critical risk
label. -/
theorem overall_mean_of_group_means (l : List Attestation)
    (q : Option WeightedReputationQuery) :
    ((getWeightedReputation l q).overall =
      if (getWeightedReputation l q).byCategory = [] then 0
      else meanScores ((getWeightedReputation l q).byCategory.map Prod.snd)) ∧
    (getWeightedReputation exampleAtts none).byCategory = [("a:x", 90), ("a:y", 50)] ∧
    (getWeightedReputation exampleAtts none).overall = 70 ∧
    (getWeightedReputation exampleAtts none).totalAttestations = 3 ∧
    (getWeightedReputation exampleAtts none).riskLevel = RiskLevel.critical :=
  ⟨by rw [overall_eq, byCategory_eq],
   example_byCategory, example_overall, example_totalAttestations, example_riskLevel⟩

theorem overall_mean_of_group_means_witness :
    (getWeightedReputation exampleAtts none).overall = 70 :=
  (overall_mean_of_group_means exampleAtts none).2.2.1

/-- C1 counterexample: two attestations with distinct pairs of
namespace and tag collide into a single byCategory entry, because the
grouping key is the colon concatenation of the two fields; the claim
that two distinct pairs never share an entry is therefore false. -/
theorem byCategory_key_collision :
    (collideA.ns, collideA.tag) ≠ (collideB.ns, collideB.tag) ∧
    (getWeightedReputation [collideA, collideB] none).byCategory = [("a:b:c", 50)] := by
  constructor
  · decide
  · have heq : ("a:b" ++ ":" ++ "c" : String) = "a" ++ ":" ++ "b:c" := by decide
    norm_num [getWeightedReputation, categoryScoresOf, groupByCategory, pushScore, categoryKey,
      meanScores, applyFilter, filterByField, collideA, collideB, List.foldl, heq]
    decide

/-- C1 (amended): byCategory contains exactly one entry per distinct
category key string, namely the colon concatenation of namespace and
tag, present among the filtered attestations, and that entry is the
arithmetic mean of the scores sharing that key; two distinct pairs of
namespace and tag share an entry exactly when their key strings
coincide, which can happen when a field itself contains a colon. -/
theorem byCategory_entries_by_key (l : List Attestation)
    (q : Option WeightedReputationQuery) :
    ((getWeightedReputation l q).byCategory.map Prod.fst).Nodup ∧
    (∀ k, k ∈ (getWeightedReputation l q).byCategory.map Prod.fst ↔
      ∃ a ∈ applyFilter q l, categoryKey a = k) ∧
    (∀ k, lookupG k (getWeightedReputation l q).byCategory =
      if scoresOf (applyFilter q l) k = [] then none
      else some (meanScores (scoresOf (applyFilter q l) k))) := by
  refine ⟨?_, ?_, ?_⟩
  · rw [byCategory_eq]
    exact nodup_map_fst_categoryScoresOf _
  · intro k
    rw [byCategory_eq, mem_keys_categoryScoresOf, scoresOf_ne_nil_iff]
  · intro k
    rw [byCategory_eq, lookupG_categoryScoresOf]

theorem byCategory_entries_by_key_witness :
    lookupG "a:x" (getWeightedReputation exampleAtts none).byCategory =
      if scoresOf (applyFilter none exampleAtts) "a:x" = [] then none
      else some (meanScores (scoresOf (applyFilter none exampleAtts) "a:x")) :=
  (byCategory_entries_by_key exampleAtts none).2.2 "a:x"

/-- C4: attestations removed by the filter have no influence on
byCategory or overall: the keys of the filtered byCategory are a
subset of the unfiltered keys, every entry is the mean of the scores
of surviving attestations only, while totalAttestations and riskLevel
are computed from the full pre-filter list and are identical for
every choice of filter over the same list. -/
theorem filter_frame_conditions (l : List Attestation)
    (q q1 q2 : Option WeightedReputationQuery) :
    (getWeightedReputation l q1).totalAttestations
      = (getWeightedReputation l q2).totalAttestations ∧
    (getWeightedReputation l q1).riskLevel = (getWeightedReputation l q2).riskLevel ∧
    (∀ k, k ∈ (getWeightedReputation l q).byCategory.map Prod.fst →
      k ∈ (getWeightedReputation l none).byCategory.map Prod.fst) ∧
    (∀ k v, lookupG k (getWeightedReputation l q).byCategory = some v →
      scoresOf (applyFilter q l) k ≠ [] ∧
        v = meanScores (scoresOf (applyFilter q l) k)) := by
  refine ⟨rfl, rfl, ?_, ?_⟩
  · intro k hk
    rw [byCategory_eq, mem_keys_categoryScoresOf, scoresOf_ne_nil_iff] at hk ⊢
    rw [applyFilter_none]
    obtain ⟨a, ha, hak⟩ := hk
    exact ⟨a, mem_applyFilter q l a ha, hak⟩
  · intro k v hv
    rw [byCategory_eq, lookupG_categoryScoresOf] at hv
    by_cases h : scoresOf (applyFilter q l) k = []
    · rw [if_pos h] at hv
      exact absurd hv (by simp)
    · rw [if_neg h] at hv
      exact ⟨h, (Option.some_inj.mp hv).symm⟩

theorem filter_frame_conditions_witness :
    (getWeightedReputation exampleAtts (some ⟨none, some "a", none⟩)).totalAttestations
      = (getWeightedReputation exampleAtts none).totalAttestations ∧
    (getWeightedReputation exampleAtts (some ⟨none, some "a", none⟩)).riskLevel
      = (getWeightedReputation exampleAtts none).riskLevel :=
  ⟨(filter_frame_conditions exampleAtts none (some ⟨none, some "a", none⟩) none).1,
   (filter_frame_conditions exampleAtts none (some ⟨none, some "a", none⟩) none).2.1⟩

theorem mem_scoresOf (L : List Attestation) (k : String) (s : ℚ)
    (h : s ∈ scoresOf L k) : ∃ a ∈ L, a.score = s := by
  obtain ⟨a, ha, has⟩ := List.mem_map.mp h
  exact ⟨a, (List.mem_filter.mp ha).1, has⟩

/-- C6: when filtering leaves at least one group, the overall score is
non-negative whenever every attestation score is non-negative, and the
overall score never exceeds the maximum per-group mean of byCategory. -/
theorem overall_nonneg_and_le_max (l : List Attestation)
    (q : Option WeightedReputationQuery)
    (h : (getWeightedReputation l q).byCategory ≠ []) :
    ((∀ a ∈ l, 0 ≤ a.score) → 0 ≤ (getWeightedReputation l q).overall) ∧
    ∃ m ∈ (getWeightedReputation l q).byCategory.map Prod.snd,
      (∀ v ∈ (getWeightedReputation l q).byCategory.map Prod.snd, v ≤ m) ∧
      (getWeightedReputation l q).overall ≤ m := by
  rw [byCategory_eq] at h ⊢
  have hvne : (categoryScoresOf (applyFilter q l)).map Prod.snd ≠ [] := by
    simpa [List.map_eq_nil_iff] using h
  have hov : (getWeightedReputation l q).overall =
      meanScores ((categoryScoresOf (applyFilter q l)).map Prod.snd) := by
    rw [overall_eq, if_neg h]
  constructor
  · intro hscores
    rw [hov]
    refine le_meanScores hvne ?_
    intro v hv
    obtain ⟨k, hkne, rfl⟩ := (mem_map_snd_categoryScoresOf _ v).mp hv
    refine le_meanScores hkne ?_
    intro s hs
    obtain ⟨a, ha, rfl⟩ := mem_scoresOf _ k s hs
    exact hscores a (mem_applyFilter q l a ha)
  · obtain ⟨m, hm, hmax⟩ := exists_max_mem _ hvne
    refine ⟨m, hm, hmax, ?_⟩
    rw [hov]
    exact meanScores_le hvne hmax

theorem overall_nonneg_and_le_max_witness :
    0 ≤ (getWeightedReputation exampleAtts none).overall :=
  (overall_nonneg_and_le_max exampleAtts none
      (by simp [example_byCategory])).1
    (by
      intro a ha
      simp only [exampleAtts, List.mem_cons, List.not_mem_nil, or_false] at ha
      rcases ha with rfl | rfl | rfl <;> norm_num [exAtt1, exAtt2, exAtt3])

/-- C10: when every score of the input lies in a closed interval, every
value of byCategory lies in that interval, and so does the overall
score whenever byCategory is non-empty. -/
theorem score_range_preserved (l : List Attestation)
    (q : Option WeightedReputationQuery) (lo hi : ℚ) (hlohi : lo ≤ hi)
    (hs : ∀ a ∈ l, lo ≤ a.score ∧ a.score ≤ hi) :
    (∀ v ∈ (getWeightedReputation l q).byCategory.map Prod.snd, lo ≤ v ∧ v ≤ hi) ∧
    ((getWeightedReputation l q).byCategory ≠ [] →
      lo ≤ (getWeightedReputation l q).overall ∧
        (getWeightedReputation l q).overall ≤ hi) := by
  have hvals : ∀ v ∈ (categoryScoresOf (applyFilter q l)).map Prod.snd,
      lo ≤ v ∧ v ≤ hi := by
    intro v hv
    obtain ⟨k, hkne, rfl⟩ := (mem_map_snd_categoryScoresOf _ v).mp hv
    have hbound : ∀ s ∈ scoresOf (applyFilter q l) k, lo ≤ s ∧ s ≤ hi := by
      intro s hs'
      obtain ⟨a, ha, rfl⟩ := mem_scoresOf _ k s hs'
      exact hs a (mem_applyFilter q l a ha)
    exact ⟨le_meanScores hkne (fun s hs' => (hbound s hs').1),
      meanScores_le hkne (fun s hs' => (hbound s hs').2)⟩
  constructor
  · rw [byCategory_eq]
    exact hvals
  · intro hne
    rw [byCategory_eq] at hne
    have hvne : (categoryScoresOf (applyFilter q l)).map Prod.snd ≠ [] := by
      simpa [List.map_eq_nil_iff] using hne
    rw [overall_eq, if_neg hne]
    exact ⟨le_meanScores hvne (fun v hv => (hvals v hv).1),
      meanScores_le hvne (fun v hv => (hvals v hv).2)⟩

theorem score_range_preserved_witness :
    50 ≤ (getWeightedReputation exampleAtts none).overall ∧
    (getWeightedReputation exampleAtts none).overall ≤ 100 :=
  (score_range_preserved exampleAtts none 50 100 (by norm_num)
      (by
        intro a ha
        simp only [exampleAtts, List.mem_cons, List.not_mem_nil, or_false] at ha
        rcases ha with rfl | rfl | rfl <;>
          exact ⟨by norm_num [exAtt1, exAtt2, exAtt3], by norm_num [exAtt1, exAtt2, exAtt3]⟩)).2
    (by simp [example_byCategory])

theorem map_snd_categoryScoresOfKeys (l : List Attestation) :
    (categoryScoresOf l).map Prod.snd =
      ((categoryScoresOf l).map Prod.fst).map (fun k => meanScores (scoresOf l k)) := by
  rw [map_snd_categoryScoresOf, map_fst_categoryScoresOf]

/-- C7: the report is independent of the order of the input list: for
every permutation of the attestations and every filter, the byCategory
mapping, the overall score, the decay factor, the risk label, the
suspicion score and the total count are all unchanged. -/
theorem report_perm_invariant (l l' : List Attestation)
    (q : Option WeightedReputationQuery) (h : l.Perm l') :
    (∀ k, lookupG k (getWeightedReputation l q).byCategory
        = lookupG k (getWeightedReputation l' q).byCategory) ∧
    (getWeightedReputation l q).overall = (getWeightedReputation l' q).overall ∧
    (getWeightedReputation l q).decayFactor = (getWeightedReputation l' q).decayFactor ∧
    (getWeightedReputation l q).riskLevel = (getWeightedReputation l' q).riskLevel ∧
    (getWeightedReputation l q).suspicionScore
      = (getWeightedReputation l' q).suspicionScore ∧
    (getWeightedReputation l q).totalAttestations
      = (getWeightedReputation l' q).totalAttestations := by
  have hf : (applyFilter q l).Perm (applyFilter q l') := applyFilter_perm q h
  have hs : ∀ k, (scoresOf (applyFilter q l) k).Perm (scoresOf (applyFilter q l') k) :=
    fun k => scoresOf_perm hf k
  have hnil : ∀ k, scoresOf (applyFilter q l) k = [] ↔ scoresOf (applyFilter q l') k = [] := by
    intro k
    rw [← List.length_eq_zero, ← List.length_eq_zero, (hs k).length_eq]
  have hmean : ∀ k, meanScores (scoresOf (applyFilter q l) k)
      = meanScores (scoresOf (applyFilter q l') k) := by
    intro k
    rw [meanScores, meanScores, (hs k).sum_eq, (hs k).length_eq]
  have hkeys : ((categoryScoresOf (applyFilter q l)).map Prod.fst).Perm
      ((categoryScoresOf (applyFilter q l')).map Prod.fst) := by
    rw [List.perm_ext_iff_of_nodup (nodup_map_fst_categoryScoresOf _)
      (nodup_map_fst_categoryScoresOf _)]
    intro k
    rw [mem_keys_categoryScoresOf, mem_keys_categoryScoresOf]
    exact not_congr (hnil k)
  have hcs : categoryScoresOf (applyFilter q l) = [] ↔
      categoryScoresOf (applyFilter q l') = [] := by
    rw [← List.map_eq_nil_iff (f := (Prod.fst : String × ℚ → String)),
      ← List.map_eq_nil_iff (f := (Prod.fst : String × ℚ → String)),
      ← List.length_eq_zero, ← List.length_eq_zero, hkeys.length_eq]
  refine ⟨?_, ?_, rfl, ?_, rfl, ?_⟩
  · intro k
    rw [byCategory_eq, byCategory_eq, lookupG_categoryScoresOf, lookupG_categoryScoresOf]
    by_cases hh : scoresOf (applyFilter q l) k = []
    · rw [if_pos hh, if_pos ((hnil k).mp hh)]
    · rw [if_neg hh, if_neg (fun hc => hh ((hnil k).mpr hc)), hmean k]
  · rw [overall_eq, overall_eq]
    by_cases hc : categoryScoresOf (applyFilter q l) = []
    · rw [if_pos hc, if_pos (hcs.mp hc)]
    · have hc' : ¬categoryScoresOf (applyFilter q l') = [] := fun hh => hc (hcs.mpr hh)
      rw [if_neg hc, if_neg hc']
      rw [map_snd_categoryScoresOfKeys, map_snd_categoryScoresOfKeys]
      have hg : (fun k => meanScores (scoresOf (applyFilter q l') k))
          = (fun k => meanScores (scoresOf (applyFilter q l) k)) :=
        funext (fun k => (hmean k).symm)
      rw [hg]
      have hperm2 := hkeys.map (fun k => meanScores (scoresOf (applyFilter q l) k))
      rw [meanScores, meanScores, hperm2.sum_eq, hperm2.length_eq]
  · rw [riskLevel_eq, riskLevel_eq, h.length_eq]
  · rw [totalAttestations_eq, totalAttestations_eq, h.length_eq]

theorem report_perm_invariant_witness :
    (getWeightedReputation [exAtt2, exAtt1, exAtt3] none).overall
      = (getWeightedReputation [exAtt1, exAtt2, exAtt3] none).overall :=
  (report_perm_invariant [exAtt2, exAtt1, exAtt3] [exAtt1, exAtt2, exAtt3] none
    (List.Perm.swap exAtt1 exAtt2 [exAtt3])).2.1
